import Mathlib

/-!
Verification development for the nostk command-line nostr client.

The Go sources (`common.go` and the main command file) are shallowly
embedded below: pure functions become Lean functions, Go map lookups
with zero-value defaults become total functions with explicit defaults,
runtime panics (out-of-range slice indexing) become an explicit `panic`
constructor of a result type, and external collaborators (the nostr
library's key handling, relay connections, the filesystem) are modelled
as oracles passed in explicitly.
-/

namespace Nostk

/-- Result of running a Go function that may return an error value or
panic at runtime (out-of-range slice indexing). `GoRes.panic` models a
Go runtime panic, `GoRes.err` a returned non-nil `error`. -/
inductive GoRes (α : Type) where
  | panic : GoRes α
  | err : String → GoRes α
  | ok : α → GoRes α
deriving DecidableEq

/-- Outcome of running `checkTags`: a runtime panic, a returned error
(together with the kind and offending tag name that the source logs via
`log.Printf` just before returning), or a nil error. -/
inductive CheckResult where
  | panicked : CheckResult
  | failed : Int → String → CheckResult
  | passed : CheckResult
deriving DecidableEq

/-- `const subCommandName = 1` from `common.go`. -/
def subCommandName : Nat := 1

/-- Modelled from the spec: the constant `indexTagName`, referenced by
`checkTags` in `common.go` but declared in a source file not present
here. Per the spec's data model, "position 0 is the tag name", so the
index of a tag's name is 0. -/
def indexTagName : Nat := 0

/-- `NewChkTblMap` from `common.go`: the kind → allowed-tag-names table.
A Go map lookup at an absent key yields the zero value (nil slice),
modelled by the final `[]` default. -/
def NewChkTblMap (kind : Int) : List String :=
  if kind = 1 then ["content-warning", "client", "e", "emoji", "expiration", "p", "q", "r", "t"]
  else if kind = 6 then ["e", "p"]
  else if kind = 10000 then ["e", "p", "t", "word"]
  else if kind = 10001 then ["e"]
  else if kind = 30315 then ["d", "emoji", "expiration", "r"]
  else []

/-- `ChkTblMap.contains` from `common.go`: membership of `target` in the
allowed set for `kind` (the source materialises the slice into a
`map[string]struct{}` via `sliceToMap` and probes it; extensionally this
is membership in the slice). -/
def chkTblContains (kind : Int) (target : String) : Bool :=
  (NewChkTblMap kind).contains target

/-- `checkTags` from `common.go`: walk the tags in order; for each tag,
read its name at `tg[indexTagName]` (a Go slice index, which panics when
the tag is empty) and test membership in the kind's allowed set; fail on
the first non-member, reporting the kind and the offending tag name. -/
def checkTags (kind : Int) : List (List String) → CheckResult
  | [] => .passed
  | tg :: rest =>
    match tg.get? indexTagName with
    | none => .panicked
    | some name =>
      if chkTblContains kind name then checkTags kind rest
      else .failed kind name

/-! ## Subcommand registries and the event builder -/

/-- `NewSubCmdKindTbl` from `common.go`: subcommand name → produced
event kind. `none` models absence of the key from the Go map. -/
def NewSubCmdKindTbl (cmd : String) : Option Int :=
  if cmd = "pubMessage" then some 1
  else if cmd = "pubMessageTo" then some 1
  else none

/-- `NewConvArgsTagsTbl` from `common.go`: subcommand name → positional
argument index → bound tag-name slice. A lookup at an unregistered
subcommand or an unbound index yields the Go zero value (nil slice),
modelled by `[]`. -/
def NewConvArgsTagsTbl (cmd : String) (index : Nat) : List String :=
  if cmd = "pubMessage" then (if index = 3 then ["content-warning"] else [])
  else if cmd = "pubMessageTo" then (if index = 3 then ["p"] else [])
  else []

/-- `ConvArgsTagsTbl.hasSubcommand` from `common.go`: error when the
argument list has no position 1, or when position 1 is not a registered
key of the conversion table. -/
def convHasSubcommand (args : List String) : Option String :=
  match args.get? subCommandName with
  | none => some ("index 1 out of range in args")
  | some cmd =>
    if cmd = "pubMessage" ∨ cmd = "pubMessageTo" then none
    else some ("Not supported subcommand " ++ cmd)

/-- `SubCmdKindTbl.hasSubcommand` from `common.go`: same checks against
the kind table (whose key set coincides with the conversion table's). -/
def kindHasSubcommand (args : List String) : Option String :=
  match args.get? subCommandName with
  | none => some ("index 1 out of range in args")
  | some cmd =>
    if (NewSubCmdKindTbl cmd).isSome then none
    else some ("Not supported subcommand " ++ cmd)

/-- `SubCmdKindTbl.get` from `common.go`: the kind of the subcommand at
position 1, after the `hasSubcommand` gate (the `getD 0` models the Go
map's zero-value default, unreachable after the gate). -/
def subCmdKindGet (args : List String) : Except String Int :=
  match kindHasSubcommand args with
  | some e => .error e
  | none => .ok ((NewSubCmdKindTbl (args.getD subCommandName "")).getD 0)

/-- The `RawArg` struct from `common.go`: the draft event assembled by
`buildJson` (its JSON serialisation is the external boundary; the
record itself carries the three fields marshalled). -/
structure RawArg where
  kind : Int
  content : String
  tags : List (List String)
deriving DecidableEq

/-- `addTags` from `common.go`: re-check the subcommand, then build the
two-element tag `[list[cmd][index][0], args[index]]` and append it. The
head of the bound name slice is a Go slice index: when position `index`
has no registered binding the slice is nil and `[0]` panics. -/
def addTags (args : List String) (index : Nat) (tgs : List (List String)) :
    GoRes (List (List String)) :=
  match convHasSubcommand args with
  | some e => .err e
  | none =>
    match (NewConvArgsTagsTbl (args.getD subCommandName "") index).head? with
    | none => .panic
    | some nm => .ok (tgs ++ [[nm, args.getD index ""]])

/-- The `for i := range args` switch of `buildJson`, iterating over the
indexed arguments: index 0 (program name) is skipped, index 1 sets the
kind from the registry, index 2 sets the content, and every later index
goes through `addTags`; any error or panic aborts the loop. -/
def buildSteps : List (Nat × String) → List String → RawArg → GoRes RawArg
  | [], _, ret => .ok ret
  | (i, v) :: rest, args, ret =>
    if i = 0 then buildSteps rest args ret
    else if i = 1 then
      match subCmdKindGet args with
      | .error e => .err e
      | .ok k => buildSteps rest args { ret with kind := k }
    else if i = 2 then buildSteps rest args { ret with content := v }
    else
      match addTags args i ret.tags with
      | .panic => .panic
      | .err e => .err e
      | .ok tgs => buildSteps rest args { ret with tags := tgs }

/-- `buildJson` from `common.go`: gate on the conversion table's
`hasSubcommand`, then run the argument loop starting from the
zero-valued `RawArg`. (The final `json.Marshal` of the struct is the
serialisation boundary; it cannot fail on this struct type, and the
result is modelled as the struct itself.) -/
def buildJson (args : List String) : GoRes RawArg :=
  match convHasSubcommand args with
  | some e => .err e
  | none => buildSteps args.enum args ⟨0, "", []⟩

/-- Follows the spec's words (§4.2): identical assembly, but "after
assembly, the draft event's tags are passed to TagSchema.validate
before being returned; a schema violation aborts construction". -/
def buildJsonSpecced (args : List String) : GoRes RawArg :=
  match buildJson args with
  | .ok ev =>
    match checkTags ev.kind ev.tags with
    | .passed => .ok ev
    | .failed _ _ => .err "Inclusion of invalid tag in specified kind"
    | .panicked => .panic
  | other => other

/-! ## Relay publish fan-out

The publish loop shared by `publishMessage`, `publishProfile` and
`publishRelayList` in the main source file:

    for _, url := range rl {
        relay, err := nostr.RelayConnect(ctx, url)
        if err != nil { fmt.Println(err); continue }
        _, err = relay.Publish(ctx, ev)
        if err != nil { fmt.Println(err); continue }
        fmt.Printf("published to %s\n", url)
    }

`nostr.RelayConnect` and `relay.Publish` are external collaborators,
modelled as oracles `connect, publish : String → Option String` giving
for each URL the error they produce there (`none` = success). One
`Outcome` records the console line printed for one relay attempt. -/

/-- The per-relay outcome: the terminal state of one relay attempt
together with the URL (and the error printed, if any). -/
inductive Outcome where
  | connectFailed : String → String → Outcome
  | publishFailed : String → String → Outcome
  | published : String → Outcome
deriving DecidableEq

/-- One relay attempt of the loop body: connect, then publish, each
`continue`-ing on error. -/
def attemptRelay (connect publish : String → Option String) (url : String) : Outcome :=
  match connect url with
  | some e => .connectFailed url e
  | none =>
    match publish url with
    | some e => .publishFailed url e
    | none => .published url

/-- The `for _, url := range rl` loop, translated clause by clause: each
iteration connects, `continue`s on a connect error, publishes,
`continue`s on a publish error, and otherwise reports success; the loop
never exits early. -/
def publishLoop (connect publish : String → Option String) : List String → List Outcome
  | [] => []
  | url :: rest =>
    match connect url with
    | some e => .connectFailed url e :: publishLoop connect publish rest
    | none =>
      match publish url with
      | some e => .publishFailed url e :: publishLoop connect publish rest
      | none => .published url :: publishLoop connect publish rest

theorem publishLoop_cons_eq (connect publish : String → Option String) (url : String)
    (rest : List String) :
    publishLoop connect publish (url :: rest) =
      attemptRelay connect publish url :: publishLoop connect publish rest := by
  cases hc : connect url with
  | some e => simp [publishLoop, attemptRelay, hc]
  | none => cases hp : publish url <;> simp [publishLoop, attemptRelay, hc, hp]

theorem publishLoop_eq_map (connect publish : String → Option String) (urls : List String) :
    publishLoop connect publish urls = urls.map (attemptRelay connect publish) := by
  induction urls with
  | nil => rfl
  | cons url rest ih => rw [publishLoop_cons_eq, ih]; rfl

/-- C1: the publish loop attempts every relay URL exactly once, in list
order, with no retry: the outcome list has one entry per URL, the entry
at index `i` is the outcome of attempting relay `i` alone (so a failure
at one relay never affects any other), and in the concrete 3-relay run
where only the 2nd relay fails to connect, the result is exactly 3
outcomes with outcome 1 marked connect-failed and outcomes 0 and 2
reflecting their own successes. -/
theorem publishLoop_visits_every_relay_independently :
    (∀ (connect publish : String → Option String) (urls : List String),
      (publishLoop connect publish urls).length = urls.length) ∧
    (∀ (connect publish : String → Option String) (urls : List String) (i : Nat),
      (publishLoop connect publish urls).get? i =
        (urls.get? i).map (attemptRelay connect publish)) ∧
    publishLoop (fun u => if u = "wss://b" then some "connection refused" else none)
        (fun _ => none) ["wss://a", "wss://b", "wss://c"] =
      [Outcome.published "wss://a", Outcome.connectFailed "wss://b" "connection refused",
        Outcome.published "wss://c"] := by
  refine ⟨fun c p urls => ?_, fun c p urls i => ?_, by decide⟩
  · rw [publishLoop_eq_map]; exact List.length_map urls _
  · rw [publishLoop_eq_map]; exact List.get?_map _ urls i

theorem checkTags_cons (kind : Int) (x : String) (xs : List String)
    (rest : List (List String)) :
    checkTags kind ((x :: xs) :: rest) =
      if chkTblContains kind x then checkTags kind rest
      else CheckResult.failed kind x := rfl

/-- C3: for tag sequences made of non-empty tags, `checkTags` passes iff
every tag's first element is in the allowed set for the kind; it fails
on the first non-member, reporting the offending kind and tag name; and
a kind absent from the schema table has an empty allowed set, so for
unknown kinds validation never passes on a non-empty tag sequence
(fail-closed). -/
theorem checkTags_passes_iff_all_allowed (kind : Int) (tags : List (List String))
    (hne : ∀ t ∈ tags, t ≠ []) :
    (checkTags kind tags = CheckResult.passed ↔
      ∀ t ∈ tags, chkTblContains kind (t.headD "") = true) ∧
    (∀ pre t post, tags = pre ++ t :: post →
      (∀ u ∈ pre, chkTblContains kind (u.headD "") = true) →
      chkTblContains kind (t.headD "") = false →
      checkTags kind tags = CheckResult.failed kind (t.headD "")) ∧
    (kind ∉ ([1, 6, 10000, 10001, 30315] : List Int) →
      NewChkTblMap kind = [] ∧
      (tags ≠ [] → checkTags kind tags ≠ CheckResult.passed)) := by
  have tbl_empty : kind ∉ ([1, 6, 10000, 10001, 30315] : List Int) →
      NewChkTblMap kind = [] := by
    intro hk
    simp only [List.mem_cons, List.mem_singleton, not_or] at hk
    obtain ⟨h1, h6, h10000, h10001, h30315, -⟩ := hk
    simp [NewChkTblMap, h1, h6, h10000, h10001, h30315]
  have main : ∀ (tgs : List (List String)), (∀ t ∈ tgs, t ≠ []) →
      (checkTags kind tgs = CheckResult.passed ↔
        ∀ t ∈ tgs, chkTblContains kind (t.headD "") = true) := by
    intro tgs hns
    induction tgs with
    | nil => simp [checkTags]
    | cons t rest ih =>
      obtain ⟨x, xs, rfl⟩ := List.exists_cons_of_ne_nil (hns t (by simp))
      rw [checkTags_cons]
      by_cases hx : chkTblContains kind x
      · rw [if_pos hx]
        rw [ih (fun u hu => hns u (by simp [hu]))]
        simp [hx]
      · rw [if_neg hx]
        constructor
        · intro h; cases h
        · intro h
          exact absurd (h (x :: xs) (by simp)) (by simpa using hx)
  refine ⟨main tags hne, ?_, ?_⟩
  · intro pre t post htags hpre ht
    subst htags
    induction pre with
    | nil =>
      obtain ⟨x, xs, rfl⟩ := List.exists_cons_of_ne_nil (hne t (by simp))
      simp only [List.headD_cons] at ht
      simp [checkTags_cons, ht]
    | cons u pre' ih =>
      obtain ⟨y, ys, rfl⟩ := List.exists_cons_of_ne_nil (hne u (by simp))
      have hy : chkTblContains kind y = true := by
        simpa using hpre (y :: ys) (by simp)
      rw [List.cons_append, checkTags_cons, if_pos hy]
      exact ih (fun v hv => hpre v (List.mem_cons_of_mem _ hv))
        (fun v hv => hne v (List.mem_cons_of_mem _ hv))
  · intro hk
    refine ⟨tbl_empty hk, fun hnil hpass => ?_⟩
    obtain ⟨t, rest, rfl⟩ := List.exists_cons_of_ne_nil hnil
    have := (main _ hne).mp hpass (t) (by simp)
    rw [show chkTblContains kind (t.headD "") = false by
      simp [chkTblContains, tbl_empty hk]] at this
    cases this

/-- C3 witness: instantiating the theorem at kind 1 with tags
`[["t","x"], ["bogus","y"]]`: validation fails naming kind 1 and tag
name "bogus". -/
theorem checkTags_passes_iff_all_allowed_witness :
    checkTags 1 [["t", "x"], ["bogus", "y"]] = CheckResult.failed 1 "bogus" := by
  have h := (checkTags_passes_iff_all_allowed 1 [["t", "x"], ["bogus", "y"]]
    (by decide)).2.1 [["t", "x"]] ["bogus", "y"] [] rfl (by decide) (by decide)
  simpa using h

/-- C10 counterexample: the claim says any tag sequence containing an
empty tag makes `checkTags` panic, but when an invalid-named tag
precedes the empty tag the loop returns the error value first: on
kind 1 with tags `[["bogus","y"], []]` (which contains the empty tag)
the result is the returned error, not a panic. -/
theorem checkTags_empty_tag_after_invalid_no_panic :
    (([] : List String) ∈ [["bogus", "y"], ([] : List String)]) ∧
    checkTags 1 [["bogus", "y"], []] = CheckResult.failed 1 "bogus" := by decide

/-- C10 amended: `checkTags` reads each tag's name by indexing position
0 unconditionally, so it is panic-free exactly under the precondition
that every tag is non-empty; a sequence containing an empty tag panics
whenever every tag preceding the first empty tag has an allowed name
(if some earlier tag has a disallowed name, the error value is returned
before the empty tag is reached). -/
theorem checkTags_panics_when_empty_tag_reached :
    (∀ (kind : Int) (tags : List (List String)), (∀ t ∈ tags, t ≠ []) →
      checkTags kind tags ≠ CheckResult.panicked) ∧
    (∀ (kind : Int) (pre post : List (List String)),
      (∀ u ∈ pre, u ≠ [] ∧ chkTblContains kind (u.headD "") = true) →
      checkTags kind (pre ++ ([] : List String) :: post) = CheckResult.panicked) := by
  constructor
  · intro kind tags hne
    induction tags with
    | nil => simp [checkTags]
    | cons t rest ih =>
      obtain ⟨x, xs, rfl⟩ := List.exists_cons_of_ne_nil (hne t (by simp))
      rw [checkTags_cons]
      by_cases hx : chkTblContains kind x
      · rw [if_pos hx]; exact ih (fun u hu => hne u (by simp [hu]))
      · rw [if_neg hx]; intro h; cases h
  · intro kind pre post hpre
    induction pre with
    | nil => rfl
    | cons u pre' ih =>
      obtain ⟨y, ys, rfl⟩ := List.exists_cons_of_ne_nil (hpre u (by simp)).1
      have hy : chkTblContains kind y = true := by
        simpa using (hpre (y :: ys) (by simp)).2
      rw [List.cons_append, checkTags_cons, if_pos hy]
      exact ih (fun v hv => hpre v (by simp [hv]))

/-- C10 witness: instantiating the amended theorem: a sequence of
non-empty tags never panics, and a valid tag followed by an empty tag
panics. -/
theorem checkTags_panics_when_empty_tag_reached_witness :
    checkTags 1 [["t", "x"]] ≠ CheckResult.panicked ∧
    checkTags 1 [["e", "a"], []] = CheckResult.panicked :=
  ⟨checkTags_panics_when_empty_tag_reached.1 1 [["t", "x"]] (by decide),
    checkTags_panics_when_empty_tag_reached.2 1 [["e", "a"]] [] (by decide)⟩

/-! ## Evaluation lemmas for `buildJson` (one per argument-list shape) -/

theorem buildJson_nil : buildJson [] = GoRes.err "index 1 out of range in args" := rfl

theorem buildJson_one (a : String) :
    buildJson [a] = GoRes.err "index 1 out of range in args" := rfl

theorem buildJson_unregistered (a cmd : String) (rest : List String)
    (h1 : cmd ≠ "pubMessage") (h2 : cmd ≠ "pubMessageTo") :
    buildJson (a :: cmd :: rest) = GoRes.err ("Not supported subcommand " ++ cmd) := by
  simp [buildJson, convHasSubcommand, subCommandName, h1, h2]

theorem buildJson_pm0 (a : String) :
    buildJson [a, "pubMessage"] = GoRes.ok ⟨1, "", []⟩ := rfl

theorem buildJson_pm1 (a v : String) :
    buildJson [a, "pubMessage", v] = GoRes.ok ⟨1, v, []⟩ := rfl

theorem buildJson_pm2 (a v w : String) :
    buildJson [a, "pubMessage", v, w] =
      GoRes.ok ⟨1, v, [["content-warning", w]]⟩ := rfl

theorem buildJson_pm_long (a v w x : String) (t : List String) :
    buildJson (a :: "pubMessage" :: v :: w :: x :: t) = GoRes.panic := rfl

theorem buildJson_pmt0 (a : String) :
    buildJson [a, "pubMessageTo"] = GoRes.ok ⟨1, "", []⟩ := rfl

theorem buildJson_pmt1 (a v : String) :
    buildJson [a, "pubMessageTo", v] = GoRes.ok ⟨1, v, []⟩ := rfl

theorem buildJson_pmt2 (a v w : String) :
    buildJson [a, "pubMessageTo", v, w] = GoRes.ok ⟨1, v, [["p", w]]⟩ := rfl

theorem buildJson_pmt_long (a v w x : String) (t : List String) :
    buildJson (a :: "pubMessageTo" :: v :: w :: x :: t) = GoRes.panic := rfl

theorem buildJson_ok_checkTags (args : List String) (ev : RawArg)
    (h : buildJson args = GoRes.ok ev) :
    checkTags ev.kind ev.tags = CheckResult.passed := by
  rcases args with _ | ⟨a, _ | ⟨c, rest⟩⟩
  · rw [buildJson_nil] at h; cases h
  · rw [buildJson_one] at h; cases h
  · by_cases h1 : c = "pubMessage"
    · subst h1
      rcases rest with _ | ⟨v, _ | ⟨w, _ | ⟨x, t⟩⟩⟩
      · rw [buildJson_pm0] at h; cases h; rfl
      · rw [buildJson_pm1] at h; cases h; rfl
      · rw [buildJson_pm2] at h; cases h; rfl
      · rw [buildJson_pm_long] at h; cases h
    · by_cases h2 : c = "pubMessageTo"
      · subst h2
        rcases rest with _ | ⟨v, _ | ⟨w, _ | ⟨x, t⟩⟩⟩
        · rw [buildJson_pmt0] at h; cases h; rfl
        · rw [buildJson_pmt1] at h; cases h; rfl
        · rw [buildJson_pmt2] at h; cases h; rfl
        · rw [buildJson_pmt_long] at h; cases h
      · rw [buildJson_unregistered a c rest h1 h2] at h; cases h

/-- C2: the builder never returns an event carrying a tag whose name is
outside the allowed set for its kind: `buildJson` is extensionally
equal to the spec-described builder that passes the assembled tags to
the tag-schema validator before returning (every tag the registries can
bind — "content-warning" and "p" — is in kind 1's allowed set, so the
validation step never fires), and every successfully returned draft
event passes `checkTags`. -/
theorem buildJson_never_returns_invalid_tags :
    (∀ args : List String, buildJson args = buildJsonSpecced args) ∧
    (∀ (args : List String) (ev : RawArg), buildJson args = GoRes.ok ev →
      checkTags ev.kind ev.tags = CheckResult.passed) := by
  refine ⟨fun args => ?_, buildJson_ok_checkTags⟩
  cases hb : buildJson args with
  | panic => simp [buildJsonSpecced, hb]
  | err e => simp [buildJsonSpecced, hb]
  | ok ev => simp [buildJsonSpecced, hb, buildJson_ok_checkTags args ev hb]

/-- C2 witness: instantiating the theorem on the build
`["nostk", "pubMessage", "hi", "r"]`, whose draft event carries the
content-warning tag and passes the kind-1 schema. -/
theorem buildJson_never_returns_invalid_tags_witness :
    checkTags 1 [["content-warning", "r"]] = CheckResult.passed :=
  buildJson_never_returns_invalid_tags.2 ["nostk", "pubMessage", "hi", "r"]
    ⟨1, "hi", [["content-warning", "r"]]⟩ (by decide)

/-- C4 counterexample: the claim requires an unsupported-subcommand
error (and no partial event) when an argument position `i ≥ 3` has no
registered `(subcommand, position)` binding, but on
`["nostk", "pubMessage", "hello", "x", "y"]` — position 4 is unbound
for `pubMessage` — `buildJson` panics (indexing the nil binding slice
at 0 in `addTags`) instead of returning the error value `GoRes.err`. -/
theorem buildJson_unbound_position_panics :
    buildJson ["nostk", "pubMessage", "hello", "x", "y"] = GoRes.panic := by decide

/-- C4 amended: an argument list whose position-1 subcommand is not a
registered key fails with the unsupported-subcommand error (or the
index-out-of-range error when position 1 is missing); an argument
position `i ≥ 3` with no registered binding makes the build panic
rather than return that error; the unbound argument is still never
silently dropped — a successful build emits exactly one tag per
argument position `i ≥ 3`. -/
theorem buildJson_registry_miss_behaviour :
    (∀ args : List String, args.length ≤ 1 →
      buildJson args = GoRes.err "index 1 out of range in args") ∧
    (∀ (a cmd : String) (rest : List String), cmd ≠ "pubMessage" →
      cmd ≠ "pubMessageTo" →
      buildJson (a :: cmd :: rest) = GoRes.err ("Not supported subcommand " ++ cmd)) ∧
    (∀ (args : List String) (cmd : String), args.get? 1 = some cmd →
      (cmd = "pubMessage" ∨ cmd = "pubMessageTo") → 5 ≤ args.length →
      buildJson args = GoRes.panic) ∧
    (∀ (args : List String) (ev : RawArg), buildJson args = GoRes.ok ev →
      ev.tags.length = args.length - 3) := by
  refine ⟨?_, buildJson_unregistered, ?_, ?_⟩
  · intro args h
    rcases args with _ | ⟨a, _ | ⟨c, rest⟩⟩
    · exact buildJson_nil
    · exact buildJson_one a
    · simp at h
  · intro args cmd hget hcmd hlen
    rcases args with _ | ⟨a, _ | ⟨c, _ | ⟨v, _ | ⟨w, _ | ⟨x, t⟩⟩⟩⟩⟩ <;>
      simp_all [List.get?]
    · rcases hcmd with rfl | rfl
      · exact buildJson_pm_long a v w x t
      · exact buildJson_pmt_long a v w x t
  · intro args ev h
    rcases args with _ | ⟨a, _ | ⟨c, rest⟩⟩
    · rw [buildJson_nil] at h; cases h
    · rw [buildJson_one] at h; cases h
    · by_cases h1 : c = "pubMessage"
      · subst h1
        rcases rest with _ | ⟨v, _ | ⟨w, _ | ⟨x, t⟩⟩⟩
        · rw [buildJson_pm0] at h; cases h; rfl
        · rw [buildJson_pm1] at h; cases h; rfl
        · rw [buildJson_pm2] at h; cases h; rfl
        · rw [buildJson_pm_long] at h; cases h
      · by_cases h2 : c = "pubMessageTo"
        · subst h2
          rcases rest with _ | ⟨v, _ | ⟨w, _ | ⟨x, t⟩⟩⟩
          · rw [buildJson_pmt0] at h; cases h; rfl
          · rw [buildJson_pmt1] at h; cases h; rfl
          · rw [buildJson_pmt2] at h; cases h; rfl
          · rw [buildJson_pmt_long] at h; cases h
        · rw [buildJson_unregistered a c rest h1 h2] at h; cases h

/-- C4 witness: instantiating the amended theorem: a missing
subcommand, an unregistered subcommand, an unbound position (panic),
and the tag-per-argument count of a successful build. -/
theorem buildJson_registry_miss_behaviour_witness :
    buildJson ["nostk"] = GoRes.err "index 1 out of range in args" ∧
    buildJson ["nostk", "bogusCmd", "hello"] =
      GoRes.err ("Not supported subcommand " ++ "bogusCmd") ∧
    buildJson ["nostk", "pubMessageTo", "hi", "pk", "extra"] = GoRes.panic ∧
    (⟨1, "hi", [["p", "pk"]]⟩ : RawArg).tags.length =
      (["nostk", "pubMessageTo", "hi", "pk"] : List String).length - 3 :=
  ⟨buildJson_registry_miss_behaviour.1 ["nostk"] (by decide),
    buildJson_registry_miss_behaviour.2.1 "nostk" "bogusCmd" ["hello"]
      (by decide) (by decide),
    buildJson_registry_miss_behaviour.2.2.1 ["nostk", "pubMessageTo", "hi", "pk", "extra"]
      "pubMessageTo" (by decide) (by decide) (by decide),
    buildJson_registry_miss_behaviour.2.2.2 ["nostk", "pubMessageTo", "hi", "pk"]
      ⟨1, "hi", [["p", "pk"]]⟩ (by decide)⟩

/-- C5: the builder takes the kind from the subcommand registry, the
content from argument position 2, and converts each argument position
`i ≥ 3` to the tag `[boundName, rawValue]`: `pubMessage` with content
alone yields kind 1, that content and no tags, and `pubMessageTo` with
content and a pubkey yields kind 1, that content and the single tag
`["p", pubkey]`. -/
theorem buildJson_pubMessage_shapes :
    (∀ prog content : String,
      buildJson [prog, "pubMessage", content] = GoRes.ok ⟨1, content, []⟩) ∧
    (∀ prog content pk : String,
      buildJson [prog, "pubMessageTo", content, pk] =
        GoRes.ok ⟨1, content, [["p", pk]]⟩) :=
  ⟨fun prog content => buildJson_pm1 prog content,
    fun prog content pk => buildJson_pmt2 prog content pk⟩

/-! ## Private-key leak detection (`containsNsec1` from `common.go`)

The source scans with Go's regexp package:

    pattern := `nsec1[a-zA-Z0-9]{58}`
    matches := re.FindAllString(text, -1)
    for _, match := range matches {
        alphanumericPart := match[5:]
        if !regexp.MustCompile(`nsec1`).MatchString(alphanumericPart) {
            return true
        }
    }
    return false

`FindAllString` returns the successive leftmost non-overlapping matches;
for this fixed-length pattern a match at a position is "the prefix
`nsec1` followed by exactly 58 ASCII alphanumerics", scanning resumes
after each 63-character match. The inner `MatchString` is substring
containment of `nsec1`. Both are embedded directly below; the scan over
positions is driven by a fuel argument bounded by the text length. -/

/-- Go's `[a-zA-Z0-9]` character class. -/
def isAlnumGo (c : Char) : Bool :=
  ('a' ≤ c && c ≤ 'z') || ('A' ≤ c && c ≤ 'Z') || ('0' ≤ c && c ≤ '9')

/-- The five characters of the bech32 private-key marker `nsec1`. -/
def nsec1Chars : List Char := ['n', 's', 'e', 'c', '1']

/-- Does `s` start with the character sequence `pat`? -/
def startsWithChars : List Char → List Char → Bool
  | [], _ => true
  | _ :: _, [] => false
  | p :: ps, c :: cs => p = c && startsWithChars ps cs

/-- A match of `nsec1[a-zA-Z0-9]{58}` anchored at the head of `s`. -/
def matchNsecHere (s : List Char) : Bool :=
  startsWithChars nsec1Chars s &&
    ((s.drop 5).take 58).length = 58 && ((s.drop 5).take 58).all isAlnumGo

/-- `FindAllString` for the pattern `nsec1[a-zA-Z0-9]{58}`: leftmost
non-overlapping 63-character matches, scanning left to right; `fuel`
(instantiated with the text length plus one) bounds the position scan. -/
def findNsecMatches : Nat → List Char → List (List Char)
  | 0, _ => []
  | Nat.succ fuel, s =>
    if matchNsecHere s then s.take 63 :: findNsecMatches fuel (s.drop 63)
    else
      match s with
      | [] => []
      | _ :: t => findNsecMatches fuel t

/-- `MatchString` of the inner pattern `nsec1`: does `s` contain the
marker as a substring? -/
def hasNsecSubstring : List Char → Bool
  | [] => false
  | c :: t => startsWithChars nsec1Chars (c :: t) || hasNsecSubstring t

/-- `containsNsec1` from `common.go`: report a leak when some match of
the scan has a 58-character alphanumeric part (the match minus its
5-character marker) that does not itself contain the marker. -/
def containsNsec1 (text : String) : Bool :=
  (findNsecMatches (text.data.length + 1) text.data).any
    (fun m => !(hasNsecSubstring (m.drop 5)))

/-- The claim's notion of a 63-character private-key-shaped token: the
marker followed by 58 alphanumerics. -/
def nsecToken (s : List Char) : Bool :=
  s.length = 63 && startsWithChars nsec1Chars s && (s.drop 5).all isAlnumGo

/-- The claim's degenerate-token guard: is `s` composed only of
repeated copies of the 5-character marker? (Driven by fuel bounded by
the length; each step strips one copy.) -/
def onlyNsecCopiesAux : Nat → List Char → Bool
  | _, [] => true
  | 0, _ :: _ => false
  | Nat.succ fuel, s =>
    startsWithChars nsec1Chars s && onlyNsecCopiesAux fuel (s.drop 5)

/-- Is the string composed only of repeated copies of `nsec1`? -/
def onlyNsecCopies (s : List Char) : Bool :=
  onlyNsecCopiesAux s.length s

/-- A token that the claim classifies as a reportable leak, but whose
alphanumeric part contains a second `nsec1` marker: the scan's
degenerate-match guard suppresses it. -/
def tokenWithInnerMarker : String :=
  "nsec1aaaaaaaaaaaaaaaaaaaansec1aaaaaaaaaaaaaaaaaaaaaaaaaaaaaaaaa"

/-- C6 counterexample: `tokenWithInnerMarker` is a 63-character token of
`nsec1` followed by 58 alphanumerics and is not composed only of
repeated copies of the prefix, so the claim requires a leak report for
content equal to it; but the detector's guard suppresses any match
whose 58-character tail merely contains `nsec1` anywhere, and reports
no leak. -/
theorem containsNsec1_misses_inner_marker_token :
    nsecToken tokenWithInnerMarker.data = true ∧
    onlyNsecCopies tokenWithInnerMarker.data = false ∧
    containsNsec1 tokenWithInnerMarker = false := by decide

/-- C6 amended: the detector reports a leak exactly when the
left-to-right non-overlapping scan finds a 63-character token (`nsec1`
plus 58 alphanumerics) whose 58-character tail does not contain `nsec1`
as a substring — a strictly wider exception than "composed only of
repeated copies of the prefix"; in particular content consisting only
of the bare prefix repeated is not reported, and a token with a
marker-free tail is. -/
theorem containsNsec1_reports_marker_free_matches :
    (∀ (text : String) (m : List Char),
      m ∈ findNsecMatches (text.data.length + 1) text.data →
      hasNsecSubstring (m.drop 5) = false → containsNsec1 text = true) ∧
    (∀ (text : String), containsNsec1 text = true →
      ∃ m ∈ findNsecMatches (text.data.length + 1) text.data,
        hasNsecSubstring (m.drop 5) = false) ∧
    containsNsec1 "nsec1nsec1nsec1nsec1nsec1nsec1nsec1nsec1nsec1nsec1nsec1nsec1nsec1" = false ∧
    containsNsec1 "nsec1bbbbbbbbbbbbbbbbbbbbbbbbbbbbbbbbbbbbbbbbbbbbbbbbbbbbbbbbbb" = true := by
  refine ⟨fun text m hm hfree => ?_, fun text h => ?_, by decide, by decide⟩
  · unfold containsNsec1
    exact List.any_eq_true.mpr ⟨m, hm, by simp [hfree]⟩
  · unfold containsNsec1 at h
    obtain ⟨m, hm, hpred⟩ := List.any_eq_true.mp h
    exact ⟨m, hm, by simpa using hpred⟩

/-- C6 witness: instantiating the amended theorem on the marker-free
token: its single scan match has a marker-free tail, so a leak is
reported. -/
theorem containsNsec1_reports_marker_free_matches_witness :
    containsNsec1 "nsec1bbbbbbbbbbbbbbbbbbbbbbbbbbbbbbbbbbbbbbbbbbbbbbbbbbbbbbbbbb" = true :=
  containsNsec1_reports_marker_free_matches.1
    "nsec1bbbbbbbbbbbbbbbbbbbbbbbbbbbbbbbbbbbbbbbbbbbbbbbbbbbbbbbbbb"
    ("nsec1bbbbbbbbbbbbbbbbbbbbbbbbbbbbbbbbbbbbbbbbbbbbbbbbbbbbbbbbbb".data)
    (by decide) (by decide)

/-! ## Hashtag extraction and paired-delimiter exclusion

`setHashTags` from `common.go` collects the matches of

    (?:^|\s)([#﹟＃][^#\s﹟＃]+[^\s|$])

and turns each into a `t` tag after deleting every character of the
class `[\s﹟＃#]` from the matched text; `excludeHashtagsParsign`
deletes every match of

    (?:^|\s)([#﹟＃][^#﹟＃]\S*[#﹟＃]\S*)

from the text. Go's regexp engine finds leftmost matches and resolves
the greedy quantifiers with backtracking; both behaviours are embedded
directly: a matcher anchored at a position (resolving the quantifier by
taking the longest feasible run), wrapped in a left-to-right scan whose
`(?:^|\s)` alternation first tries the empty `^` branch (only at the
very start of the text) and then the one-whitespace branch. Fuel
(instantiated with the text length plus one) bounds the scan. -/

/-- Go's `\s` character class `[\t\n\f\r ]`. -/
def goSpace (c : Char) : Bool :=
  c = ' ' || c = '\t' || c = '\n' || c = Char.ofNat 12 || c = '\r'

/-- The three hash-like delimiters `#`, `﹟` (U+FE5F), `＃` (U+FF03)
accepted by both patterns. -/
def hashDelims : List Char := ['#', '﹟', '＃']

/-- The final character class `[^\s|$]` of the extraction pattern. -/
def hashLastOK (c : Char) : Bool :=
  !(goSpace c) && c ≠ '|' && c ≠ '$'

/-- Backtracking search for the split of `[^#\s﹟＃]+[^\s|$]`: the
largest `k ≥ 1` (the `+` consumes `k` characters, the final class the
character at position `k`) such that the character of `t` at position
`k` satisfies the final class. -/
def hashSplitBack (t : List Char) : Nat → Option Nat
  | 0 => none
  | Nat.succ k =>
    match t.get? (k + 1) with
    | some c => if hashLastOK c then some (k + 1) else hashSplitBack t k
    | none => hashSplitBack t k

/-- The core `[#﹟＃][^#\s﹟＃]+[^\s|$]` of the extraction pattern
anchored at the head of `s`: returns the number of characters matched.
The `+` can consume at most the maximal run of non-space non-delimiter
characters after the head delimiter, and the final class then takes
the next character; the greedy split is resolved by
`hashSplitBack`. -/
def hashCore (s : List Char) : Option Nat :=
  match s with
  | [] => none
  | h :: t =>
    if hashDelims.contains h then
      let run := t.takeWhile (fun c => !(goSpace c) && !(hashDelims.contains c))
      match run.length with
      | 0 => none
      | Nat.succ _ =>
        match hashSplitBack t run.length with
        | some k => some (k + 2)
        | none => none
    else none

/-- `FindAllString` for the extraction pattern: scan positions left to
right; at the very start try the `^` branch of `(?:^|\s)` (the core
anchored directly); everywhere a whitespace character may serve as the
`\s` branch, the matched text then including it; after a match the scan
resumes past the match. -/
def scanHashAux : Nat → Bool → List Char → List (List Char)
  | 0, _, _ => []
  | Nat.succ fuel, atStart, s =>
    match (if atStart then hashCore s else none) with
    | some n => s.take n :: scanHashAux fuel false (s.drop n)
    | none =>
      match s with
      | [] => []
      | c :: t =>
        if goSpace c then
          match hashCore t with
          | some n => (c :: t.take n) :: scanHashAux fuel false (t.drop n)
          | none => scanHashAux fuel false t
        else scanHashAux fuel false t

/-- `setHashTags` from `common.go`: each match of the extraction
pattern becomes a tag `["t", v]` where `v` is the matched text with
every `[\s﹟＃#]` character deleted, in order of appearance. -/
def setHashTags (buf : String) : List (List String) :=
  (scanHashAux (buf.data.length + 1) true buf.data).map
    (fun m => ["t",
      String.mk (m.filter (fun c => !(goSpace c) && !(hashDelims.contains c)))])

/-- The core `[#﹟＃][^#﹟＃]\S*[#﹟＃]\S*` of the exclusion pattern
anchored at the head of `s`: a delimiter, one non-delimiter character,
then (resolving the two greedy `\S*` around the inner delimiter) the
whole maximal non-whitespace run, provided that run contains another
delimiter. Returns the number of characters matched. -/
def excCore (s : List Char) : Option Nat :=
  match s with
  | h :: c1 :: rest =>
    if hashDelims.contains h && !(hashDelims.contains c1) then
      let seg := rest.takeWhile (fun c => !(goSpace c))
      if seg.any (fun c => hashDelims.contains c) then some (seg.length + 2)
      else none
    else none
  | _ => none

/-- `ReplaceAllString` of the exclusion pattern with the empty string:
scan positions left to right (the `^` branch only at the very start, a
whitespace character serving as the `\s` branch and deleted with the
match), deleting every leftmost non-overlapping match and keeping all
other characters. -/
def excAux : Nat → Bool → List Char → List Char
  | 0, _, s => s
  | Nat.succ fuel, atStart, s =>
    match (if atStart then excCore s else none) with
    | some n => excAux fuel false (s.drop n)
    | none =>
      match s with
      | [] => []
      | c :: t =>
        if goSpace c then
          match excCore t with
          | some n => excAux fuel false (t.drop n)
          | none => c :: excAux fuel false t
        else c :: excAux fuel false t

/-- `excludeHashtagsParsign` from `common.go` (the pattern is a fixed
valid regex, so the compile-error branch is dead and the result is the
replaced string). -/
def excludeHashtagsParsign (src : String) : String :=
  String.mk (excAux (src.data.length + 1) true src.data)

/-- C7: hashtag extraction on `"hello #world"` produces exactly the tag
`["t", "world"]` (delimiter and surrounding whitespace stripped), and
paired-delimiter exclusion followed by extraction on content containing
the token `"#foo#bar#"` — whether embedded in surrounding text or the
whole content — produces no tag from that token. -/
theorem setHashTags_world_and_paired_exclusion :
    setHashTags "hello #world" = [["t", "world"]] ∧
    excludeHashtagsParsign "hello #foo#bar# world" = "hello world" ∧
    setHashTags (excludeHashtagsParsign "hello #foo#bar# world") = [] ∧
    setHashTags (excludeHashtagsParsign "#foo#bar#") = [] := by
  refine ⟨by decide, ?_, ?_, by decide⟩
  · decide
  · decide

/-! ## The `pubMessage` command (`main` and `publishMessage`)

`publishMessage` reads the private key, derives the public key, reads
the relay list, builds and signs a kind-1 text-note event with
`Tags: nil` and `Content: s`, runs the relay fan-out loop, and returns
nil. The external collaborators — `readPrivateKey`,
`nostr.GetPublicKey`, `getRelayList` (filesystem and crypto library)
and the per-relay network calls — are modelled as an explicit
environment of oracles; the signed fields (`created_at`, `id`, `sig`)
are set by the external signer and stay out of the model. -/

/-- The fields of the draft `nostr.Event` that `publishMessage`
populates itself before handing the event to the external signer. -/
structure Event where
  pubkey : String
  kind : Int
  tags : List (List String)
  content : String
deriving DecidableEq

/-- `nostr.KindTextNote`, the text-note kind (1) of the external
protocol library. -/
def KindTextNote : Int := 1

/-- The external collaborators consulted by `publishMessage`:
`privKey` is the result of `readPrivateKey`, `pubKeyOf` of
`nostr.GetPublicKey`, `relayList` of `getRelayList`, and `connect` /
`publish` give the per-URL outcomes of `nostr.RelayConnect` and
`relay.Publish` (`none` = success). -/
structure PubEnv where
  privKey : Except String String
  pubKeyOf : String → Except String String
  relayList : Except String (List String)
  connect : String → Option String
  publish : String → Option String

/-- `publishMessage` from the main source file, translated check by
check: empty message, unreadable private key, public-key derivation
failure and unavailable relay list each return that error before the
relay loop; otherwise the kind-1 event with nil tags and content `s`
is built, signed and fanned out, and the function returns nil (modelled
as `ok` carrying the event handed to the signer and the per-relay
outcomes) regardless of the individual outcomes. -/
def publishMessage (env : PubEnv) (s : String) : Except String (Event × List Outcome) :=
  if s.length < 1 then .error "Not set text message"
  else
    match env.privKey with
    | .error e => .error e
    | .ok sk =>
      match env.pubKeyOf sk with
      | .error e => .error e
      | .ok pk =>
        match env.relayList with
        | .error e => .error e
        | .ok rl =>
          .ok ({ pubkey := pk, kind := KindTextNote, tags := [], content := s },
            publishLoop env.connect env.publish rl)

/-- The `case "pubMessage"` arm of `main`: fewer than 3 command-line
arguments is the missing-text-message fatal error; otherwise
`publishMessage` runs on argument 2. -/
def mainPubMessage (env : PubEnv) (argv : List String) :
    Except String (Event × List Outcome) :=
  if argv.length < 3 then .error "Not set text message"
  else publishMessage env (argv.getD 2 "")

/-- C8: every pre-flight failure of the publish-message command — a
missing text-message argument, an unreadable private key, an
unavailable relay list (and a public-key derivation failure) — returns
a single terminal error, before any relay connection is attempted (the
result does not depend on the connect/publish oracles and records no
relay outcome); and once pre-flight succeeds the command returns
success whatever the per-relay outcomes are. -/
theorem publishMessage_preflight_and_completion :
    (∀ (env : PubEnv) (argv : List String), argv.length < 3 →
      mainPubMessage env argv = .error "Not set text message") ∧
    (∀ env : PubEnv, publishMessage env "" = .error "Not set text message") ∧
    (∀ (env : PubEnv) (s e : String), env.privKey = .error e →
      (∀ connect publish,
        publishMessage { env with connect := connect, publish := publish } s =
          publishMessage env s) ∧
      (s ≠ "" → publishMessage env s = .error e)) ∧
    (∀ (env : PubEnv) (s sk pk e : String), env.privKey = .ok sk →
      env.pubKeyOf sk = .ok pk → env.relayList = .error e →
      (∀ connect publish,
        publishMessage { env with connect := connect, publish := publish } s =
          publishMessage env s) ∧
      (s ≠ "" → publishMessage env s = .error e)) ∧
    (∀ (env : PubEnv) (s sk pk : String) (rl : List String), s ≠ "" →
      env.privKey = .ok sk → env.pubKeyOf sk = .ok pk → env.relayList = .ok rl →
      publishMessage env s =
        .ok ({ pubkey := pk, kind := KindTextNote, tags := [], content := s },
          publishLoop env.connect env.publish rl)) := by
  have hlen : ∀ s : String, s ≠ "" → ¬ s.length < 1 := by
    intro s hs hl
    exact hs (String.ext (List.length_eq_zero.mp (Nat.lt_one_iff.mp hl)))
  refine ⟨fun env argv h => ?_, fun env => ?_, ?_, ?_, ?_⟩
  · simp [mainPubMessage, h]
  · rfl
  · intro env s e hk
    constructor
    · intro connect publish
      by_cases hs : s = ""
      · subst hs; rfl
      · simp [publishMessage, hlen s hs, hk]
    · intro hs; simp [publishMessage, hlen s hs, hk]
  · intro env s sk pk e hk hp hr
    constructor
    · intro connect publish
      by_cases hs : s = ""
      · subst hs; rfl
      · simp [publishMessage, hlen s hs, hk, hp, hr]
    · intro hs; simp [publishMessage, hlen s hs, hk, hp, hr]
  · intro env s sk pk rl hs hk hp hr
    simp [publishMessage, hlen s hs, hk, hp, hr]

/-- C8 witness: instantiating the theorem on a concrete environment:
a short argument vector aborts; an unreadable key aborts with that
error; and with pre-flight satisfied the command succeeds even though
every relay fails to connect. -/
theorem publishMessage_preflight_and_completion_witness :
    mainPubMessage
        ⟨.ok "sk", fun _ => .ok "pk", .ok ["wss://a"], fun _ => none, fun _ => none⟩
        ["nostk", "pubMessage"] = .error "Not set text message" ∧
    publishMessage
        ⟨.error "no key", fun _ => .ok "pk", .ok ["wss://a"], fun _ => none, fun _ => none⟩
        "hi" = .error "no key" ∧
    publishMessage
        ⟨.ok "sk", fun _ => .ok "pk", .ok ["wss://a"], fun _ => some "refused", fun _ => none⟩
        "hi" =
      .ok ({ pubkey := "pk", kind := KindTextNote, tags := [], content := "hi" },
        [Outcome.connectFailed "wss://a" "refused"]) :=
  ⟨publishMessage_preflight_and_completion.1 _ ["nostk", "pubMessage"] (by decide),
    (publishMessage_preflight_and_completion.2.2.1 _ "hi" "no key" rfl).2 (by decide),
    by
      have h := publishMessage_preflight_and_completion.2.2.2.2
        ⟨.ok "sk", fun _ => .ok "pk", .ok ["wss://a"], fun _ => some "refused", fun _ => none⟩
        "hi" "sk" "pk" ["wss://a"] (by decide) rfl rfl rfl
      simpa using h⟩

/-- Content that both carries a complete `nsec1` private-key token
(`nsec1` plus 58 alphanumerics) and a hashtag token. -/
def leakyContent : String :=
  "my key is nsec1bbbbbbbbbbbbbbbbbbbbbbbbbbbbbbbbbbbbbbbbbbbbbbbbbbbbbbbbbb #oops"

/-- C9: on the `pubMessage` path, for every non-empty content string
(once the key and relay oracles answer) the event handed to the signer
and published has the empty tag list and the content verbatim — no
hashtag extraction, content-warning, or mention tag is attached, and no
private-key leak check is consulted: even content that contains a
hashtag token and a full `nsec1` private-key token (flagged by
`containsNsec1`) is published unchanged with no tags. -/
theorem publishMessage_event_has_nil_tags :
    (∀ (env : PubEnv) (s sk pk : String) (rl : List String), s ≠ "" →
      env.privKey = .ok sk → env.pubKeyOf sk = .ok pk → env.relayList = .ok rl →
      ∃ outs, publishMessage env s = .ok (⟨pk, KindTextNote, [], s⟩, outs)) ∧
    (containsNsec1 leakyContent = true ∧ setHashTags leakyContent ≠ []) := by
  constructor
  · intro env s sk pk rl hs hk hp hr
    refine ⟨publishLoop env.connect env.publish rl, ?_⟩
    have hlen : ¬ s.length < 1 := by
      intro hl
      exact hs (String.ext (List.length_eq_zero.mp (Nat.lt_one_iff.mp hl)))
    simp [publishMessage, hlen, hk, hp, hr]
  · constructor <;> decide

/-- C9 witness: instantiating the theorem on leaky, hashtag-carrying
content: the published event still has the empty tag list and the
content verbatim. -/
theorem publishMessage_event_has_nil_tags_witness :
    ∃ outs, publishMessage
        ⟨.ok "sk", fun _ => .ok "pk", .ok ["wss://a"], fun _ => none, fun _ => none⟩
        leakyContent = .ok (⟨"pk", KindTextNote, [], leakyContent⟩, outs) :=
  publishMessage_event_has_nil_tags.1
    ⟨.ok "sk", fun _ => .ok "pk", .ok ["wss://a"], fun _ => none, fun _ => none⟩
    leakyContent "sk" "pk" ["wss://a"] (by decide) rfl rfl rfl

end Nostk
